import Mathlib

/-!
Shallow embedding of the PinAI automation client (`main.js`) and proofs about
it.  Pure helper computations (point parsing, token-expiry decoding) are
modelled as Lean functions on strings and rationals; the stateful parts
(token store, claim loop, per-account orchestration) are modelled by explicit
state passing, with server behaviour supplied as explicit response lists and
JavaScript exceptions modelled as `Option`/explicit outcome constructors.

JavaScript builtins used by the source (`parseFloat`, `JSON.parse`,
`Buffer.from(_, "base64")`, `decodeURIComponent`) are modelled here directly.
Documented simplifications: `parseFloat` and the JSON number grammar are
modelled without exponent notation; base64 decoding is strict (Node silently
skips invalid characters); percent-decoding and byte-to-string conversion are
restricted to ASCII.  None of the claims checked below exercises these
corners, and in the expiry check every decoding failure already maps to the
fail-closed branch.
-/

namespace PinAi

/-! ### JavaScript values appearing in API responses -/

/-- A JSON value as produced by `JSON.parse`. -/
inductive Json where
  | null : Json
  | bool (bv : Bool) : Json
  | num (qv : ℚ) : Json
  | str (sv : String) : Json
  | arr (items : List Json) : Json
  | obj (fields : List (String × Json)) : Json
deriving Repr

/-- Property access `o.k` on a parsed JSON value.  For duplicate keys
`JSON.parse` keeps the last occurrence, so lookup scans from the right.
Accessing a property of a non-object yields `undefined`, i.e. `none`
(the `null` case, which throws in JavaScript, is handled by callers). -/
def Json.getField : Json → String → Option Json
  | .obj fields, k => (fields.reverse.find? (fun p => p.1 = k)).map Prod.snd
  | _, _ => none

/-- JavaScript truthiness of a JSON value (`NaN` is not representable in
JSON, so a number is falsy exactly when it is 0). -/
def truthy : Json → Bool
  | .null => false
  | .bool b => b
  | .num q => q ≠ 0
  | .str s => s ≠ ""
  | .arr _ => true
  | .obj _ => true

/-! ### Model of `parseFloat` -/

/-- Numeric value of a digit string (most significant first). -/
def digitsVal (ds : List Char) : ℕ :=
  ds.foldl (fun a c => a * 10 + (c.toNat - 48)) 0

/-- Leading-prefix float parse after sign handling: `digits[.digits]`,
needing at least one digit.  `none` models `NaN`. -/
def parseFloatUnsigned (cs : List Char) : Option ℚ :=
  let intPart := cs.takeWhile Char.isDigit
  let rest := cs.dropWhile Char.isDigit
  match rest with
  | '.' :: rest2 =>
    let fracPart := rest2.takeWhile Char.isDigit
    if intPart.isEmpty && fracPart.isEmpty then none
    else some ((digitsVal intPart : ℚ) + (digitsVal fracPart : ℚ) / 10 ^ fracPart.length)
  | _ => if intPart.isEmpty then none else some (digitsVal intPart)

/-- Model of JavaScript `parseFloat`: skip leading whitespace, optional
sign, then the longest numeric prefix; `none` models `NaN` (exponent
notation is not modelled). -/
def parseFloat (s : String) : Option ℚ :=
  let cs := s.toList.dropWhile (fun c => c = ' ' || c = '\t' || c = '\n' || c = '\r')
  match cs with
  | '-' :: rest => (parseFloatUnsigned rest).map (fun q => -q)
  | '+' :: rest => parseFloatUnsigned rest
  | _ => parseFloatUnsigned cs

/-! ### Model of `decodeURIComponent` (ASCII subset) -/

/-- Hexadecimal digit value. -/
def hexVal (c : Char) : Option Nat :=
  if '0' ≤ c ∧ c ≤ '9' then some (c.toNat - 48)
  else if 'a' ≤ c ∧ c ≤ 'f' then some (c.toNat - 87)
  else if 'A' ≤ c ∧ c ≤ 'F' then some (c.toNat - 55)
  else none

/-- Percent-decoding on character lists; a malformed `%` escape throws
`URIError`, modelled by `none`.  Multi-byte UTF-8 sequences are not
modelled (escaped bytes must be ASCII). -/
def percentDecodeList : List Char → Option (List Char)
  | [] => some []
  | '%' :: h1 :: h2 :: rest => do
    let v1 ← hexVal h1
    let v2 ← hexVal h2
    let b := v1 * 16 + v2
    if b < 128 then
      let r ← percentDecodeList rest
      pure (Char.ofNat b :: r)
    else none
  | '%' :: _ => none
  | c :: rest => do
    let r ← percentDecodeList rest
    pure (c :: r)

/-- Model of `decodeURIComponent`. -/
def percentDecode (s : String) : Option String :=
  (percentDecodeList s.toList).map List.asString

/-! ### Model of `Buffer.from(s, "base64").toString()` -/

/-- Value of one base64 alphabet character (both the standard and the
URL-safe alphabet, as Node accepts both). -/
def base64Val (c : Char) : Option Nat :=
  if 'A' ≤ c ∧ c ≤ 'Z' then some (c.toNat - 65)
  else if 'a' ≤ c ∧ c ≤ 'z' then some (c.toNat - 97 + 26)
  else if '0' ≤ c ∧ c ≤ '9' then some (c.toNat - 48 + 52)
  else if c = '+' ∨ c = '-' then some 62
  else if c = '/' ∨ c = '_' then some 63
  else none

/-- Big-endian byte list of length `k` for a natural number. -/
def bytesOf (n : Nat) : Nat → List Nat
  | 0 => []
  | k + 1 => bytesOf (n / 256) k ++ [n % 256]

/-- Base64-decode a string to a byte list.  Trailing `=` padding is
dropped; any other character outside the alphabet fails (Node would skip
it — a strictness noted in the file header). -/
def base64Decode (s : String) : Option (List Nat) := do
  let cs := (s.toList.reverse.dropWhile (fun c => c = '=')).reverse
  let vals ← cs.mapM base64Val
  let totalBits := 6 * vals.length
  let nbytes := totalBits / 8
  let big := vals.foldl (fun acc v => acc * 64 + v) 0
  pure (bytesOf (big / 2 ^ (totalBits % 8)) nbytes)

/-- Interpret a byte list as an ASCII string; non-ASCII bytes are not
modelled and fail. -/
def bytesToAscii (bs : List Nat) : Option String :=
  (bs.mapM (fun b => if b < 128 then some (Char.ofNat b) else none)).map List.asString

/-! ### Model of `String.prototype.split` with a string separator -/

/-- If `sep` is a prefix of `cs`, return what follows it. -/
def takeSep : List Char → List Char → Option (List Char)
  | [], cs => some cs
  | _ :: _, [] => none
  | s :: ss, c :: cc => if c = s then takeSep ss cc else none

/-- Split a character list at every occurrence of the (nonempty)
separator `s0 :: ss`, scanning left to right.  The fuel argument is
instantiated with the list length, which bounds the recursion. -/
def splitOnL (s0 : Char) (ss : List Char) : Nat → List Char → List (List Char)
  | 0, _ => [[]]
  | _ + 1, [] => [[]]
  | fuel + 1, c :: cs =>
    match takeSep (s0 :: ss) (c :: cs) with
    | some rest => [] :: splitOnL s0 ss fuel rest
    | none =>
      match splitOnL s0 ss fuel cs with
      | [] => [[c]]
      | h2 :: t => (c :: h2) :: t

/-- JavaScript `s.split(sep)` for a nonempty separator (all separators in
the source — `"."`, `"&"`, `"\n"`, `"user="` — are nonempty). -/
def splitOnStr (s : String) (s0 : Char) (ss : List Char) : List String :=
  (splitOnL s0 ss s.toList.length s.toList).map List.asString

/-! ### Model of `JSON.parse` -/

/-- JSON whitespace. -/
def skipWs (cs : List Char) : List Char :=
  cs.dropWhile (fun c => c = ' ' || c = '\n' || c = '\t' || c = '\r')

/-- The single-character JSON string escapes (`\u` escapes are not
modelled). -/
def escChar (e : Char) : Option Char :=
  if e = '"' ∨ e = '\\' ∨ e = '/' then some e
  else if e = 'n' then some '\n'
  else if e = 't' then some '\t'
  else if e = 'r' then some '\x0d'
  else if e = 'b' then some (Char.ofNat 8)
  else if e = 'f' then some (Char.ofNat 12)
  else none

/-- Parse the body of a JSON string literal (the opening quote already
consumed), returning the string and the rest of the input. -/
def parseStrBody : List Char → Option (String × List Char)
  | [] => none
  | '"' :: rest => some ("", rest)
  | '\\' :: e :: rest => do
    let c ← escChar e
    let (s, r) ← parseStrBody rest
    pure (⟨c :: s.toList⟩, r)
  | c :: rest => do
    let (s, r) ← parseStrBody rest
    pure (⟨c :: s.toList⟩, r)

/-- Parse a JSON number (no exponent notation, as noted in the header):
optional minus sign, integer part without redundant leading zeros,
optional fraction. -/
def parseNumBody (cs : List Char) : Option (ℚ × List Char) := do
  let (neg, cs) := match cs with
    | '-' :: rest => (true, rest)
    | _ => (false, cs)
  let intPart := cs.takeWhile Char.isDigit
  let rest := cs.dropWhile Char.isDigit
  match intPart with
  | [] => none
  | '0' :: _ :: _ => none
  | _ => do
    let (q, rest2) ← match rest with
      | '.' :: r2 =>
        let fracPart := r2.takeWhile Char.isDigit
        if fracPart.isEmpty then none
        else some ((digitsVal intPart : ℚ) + (digitsVal fracPart : ℚ) / 10 ^ fracPart.length,
          r2.dropWhile Char.isDigit)
      | _ => some ((digitsVal intPart : ℚ), rest)
    pure (if neg then -q else q, rest2)

mutual

/-- Fuel-based recursive-descent parser for one JSON value. -/
def parseVal : Nat → List Char → Option (Json × List Char)
  | 0, _ => none
  | fuel + 1, cs =>
    match skipWs cs with
    | '"' :: rest => (parseStrBody rest).map (fun p => (.str p.1, p.2))
    | 't' :: rest => (takeSep ['r', 'u', 'e'] rest).map (fun r2 => (.bool true, r2))
    | 'f' :: rest => (takeSep ['a', 'l', 's', 'e'] rest).map (fun r2 => (.bool false, r2))
    | 'n' :: rest => (takeSep ['u', 'l', 'l'] rest).map (fun r2 => (.null, r2))
    | '[' :: rest =>
      (match skipWs rest with
      | ']' :: r2 => some (.arr [], r2)
      | _ => (parseElems fuel rest).map (fun p => (.arr p.1, p.2)))
    | '{' :: rest =>
      (match skipWs rest with
      | '}' :: r2 => some (.obj [], r2)
      | _ => (parseFields fuel rest).map (fun p => (.obj p.1, p.2)))
    | cs2 => (parseNumBody cs2).map (fun p => (.num p.1, p.2))

/-- Comma-separated values up to a closing bracket. -/
def parseElems : Nat → List Char → Option (List Json × List Char)
  | 0, _ => none
  | fuel + 1, cs => do
    let (v, rest) ← parseVal fuel cs
    match skipWs rest with
    | ']' :: r2 => some ([v], r2)
    | ',' :: r2 => do
      let (vs, r3) ← parseElems fuel r2
      pure (v :: vs, r3)
    | _ => none

/-- Comma-separated `"key": value` fields up to a closing brace. -/
def parseFields : Nat → List Char → Option (List (String × Json) × List Char)
  | 0, _ => none
  | fuel + 1, cs => do
    match skipWs cs with
    | '"' :: rest => do
      let (k, r1) ← parseStrBody rest
      match skipWs r1 with
      | ':' :: r2 => do
        let (v, r3) ← parseVal fuel r2
        match skipWs r3 with
        | '}' :: r4 => some ([(k, v)], r4)
        | ',' :: r4 => do
          let (fs, r5) ← parseFields fuel r4
          pure ((k, v) :: fs, r5)
        | _ => none
      | _ => none
    | _ => none

end

/-- Model of `JSON.parse`: parse one value and require the remaining
input to be whitespace; `none` models a thrown `SyntaxError`. -/
def jsonParse (s : String) : Option Json := do
  let (v, rest) ← parseVal (2 * s.toList.length + 8) s.toList
  if (skipWs rest).isEmpty then pure v else none

/-! ### PointsCalculator (`main.js` lines 141–156) -/

/-- A JavaScript value reaching `parsePoints`: the API delivers the point
balance either as a number or as a formatted string. -/
inductive JsVal where
  | num (q : ℚ) : JsVal
  | str (s : String) : JsVal
deriving DecidableEq, Repr

/-- Model of `points.replace(/[,]/g, "")`: remove every comma. -/
def stripCommas (s : String) : String :=
  ⟨s.toList.filter (fun c => c ≠ ',')⟩

/-- Model of `points.replace(suffix, "")` for a one-character suffix:
JavaScript `String.replace` with a string pattern removes only the first
occurrence. -/
def removeFirstChar : List Char → Char → List Char
  | [], _ => []
  | c :: cs, k => if c = k then cs else c :: removeFirstChar cs k

/-- `PointsCalculator.parsePoints`.  A numeric input is returned as is.
For a string, commas are first stripped into `numericValue`; then the
suffix scan (`K` before `M`, insertion order of the multiplier table)
tests the ORIGINAL string, and on a hit recomputes the value as
`parseFloat(points.replace(suffix, "")) * multiplier` from the original,
unstripped string — discarding the comma-stripped intermediate.  The
final `parseFloat(numericValue)` is the identity on an already numeric
value and `parseFloat` of the stripped string otherwise.  `none` models
`NaN`. -/
def parsePoints : JsVal → Option ℚ
  | .num q => some q
  | .str points =>
    let numericValue := stripCommas points
    if points.toList.contains 'K' then
      (parseFloat ⟨removeFirstChar points.toList 'K'⟩).map (fun q => q * 1000)
    else if points.toList.contains 'M' then
      (parseFloat ⟨removeFirstChar points.toList 'M'⟩).map (fun q => q * 1000000)
    else
      parseFloat numericValue

/-- Modelled from the spec: "parse by stripping commas, detecting a
single suffix, and multiplying" — comma stripping happens first and the
suffix branch works on the comma-stripped string.  Stated only to compare
with `parsePoints` above. -/
def parsePointsSpec : JsVal → Option ℚ
  | .num q => some q
  | .str points =>
    let stripped := stripCommas points
    if stripped.toList.contains 'K' then
      (parseFloat ⟨removeFirstChar stripped.toList 'K'⟩).map (fun q => q * 1000)
    else if stripped.toList.contains 'M' then
      (parseFloat ⟨removeFirstChar stripped.toList 'M'⟩).map (fun q => q * 1000000)
    else
      parseFloat stripped

/-! ### TokenManager (`main.js` lines 48–98) -/

/-- The persisted token file: absent, unparsable, or a JSON object
mapping account-id keys to `\x7b access_token \x7d` records (modelled as
the token string). -/
inductive TokenFile where
  | missing : TokenFile
  | corrupt : TokenFile
  | good (m : List (String × String)) : TokenFile
deriving DecidableEq, Repr

/-- The in-memory mapping: JavaScript object keys are strings. -/
abbrev TokenStore := List (String × String)

/-- First-match association lookup (object keys are unique once written
by this program). -/
def lookupKey (m : TokenStore) (k : String) : Option String :=
  (m.find? (fun p => p.1 = k)).map Prod.snd

/-- JavaScript object assignment `tokens[userId] = ...`: replace an
existing key in place (object keys are unique), otherwise append. -/
def setKey : TokenStore → String → String → TokenStore
  | [], k, v => [(k, v)]
  | p :: rest, k, v => if p.1 = k then (k, v) :: rest else p :: setKey rest k v

/-- `TokenManager.loadTokens`: a missing or unparsable file yields the
empty mapping (fail-open); otherwise the parsed mapping. -/
def loadTokens : TokenFile → TokenStore
  | .missing => []
  | .corrupt => []
  | .good m => m

/-- `TokenManager.saveToken`: re-read the persisted mapping, assign the
entry for `userId`, and rewrite the whole file. -/
def saveToken (file : TokenFile) (userId : String) (token : String) : TokenFile :=
  .good (setKey (loadTokens file) userId token)

/-- The claims segment pipeline of `TokenManager.isExpired`:
`token.split(".")[1]` (destructured), base64-decode, `JSON.parse`.
`none` models any thrown error, caught by the surrounding `try`. -/
def decodeClaims (token : String) : Option Json := do
  let payload ← (splitOnStr token '.' []).get? 1
  let bs ← base64Decode payload
  let s ← bytesToAscii bs
  jsonParse s

/-- The comparison `now > decodedPayload.exp` for a numeric claim; a
non-numeric `exp` value is simplified to `false` (JavaScript would
numerically coerce it; no claim below exercises that corner). -/
def jsGreater (now : ℤ) : Json → Bool
  | .num e => decide ((now : ℚ) > e)
  | _ => false

/-- `TokenManager.isExpired`.  Any decoding failure is caught and yields
`true` (fail-closed); property access on a decoded `null` also throws in
JavaScript, hence `true`.  Otherwise the truthiness test
`if (decodedPayload.exp)` guards the strict comparison `now > exp`, and a
missing (or falsy, e.g. `0`) claim yields `false`. -/
def isExpired (now : ℤ) (token : String) : Bool :=
  match decodeClaims token with
  | none => true
  | some .null => true
  | some payload =>
    match payload.getField "exp" with
    | some e => if truthy e then jsGreater now e else false
    | none => false

/-! ### Coin claiming (`PinAi.collectCoins`, `main.js` lines 260–284) -/

/-- One server behaviour for a `/home/collect` POST: a completed HTTP
exchange with a status and a `coins` body (a list of `(type, count)`
pairs), or a transport error (axios throws; with default settings it also
throws on non-2xx, which the `catch` absorbs the same way the explicit
non-200 `else break` does). -/
inductive CoinResp where
  | ok (status : Nat) (coins : List (String × ℤ)) : CoinResp
  | netErr : CoinResp
deriving DecidableEq, Repr

/-- `coins.find((c) => c.type === "Telegram")`, projected to its count;
`none` models `undefined`. -/
def findCoin (coins : List (String × ℤ)) : Option ℤ :=
  (coins.find? (fun c => c.1 = "Telegram")).map Prod.snd

/-- How the claim loop ended. -/
inductive CollectExit where
  | zero : CollectExit
  | non200 : CollectExit
  | caught : CollectExit
  | exhausted : CollectExit
deriving DecidableEq, Repr

/-- Observable outcome of one run of the claim loop: how it exited, how
many claim POSTs it issued, and the successive values assigned to
`coin.count` by 200 responses. -/
structure CollectRun where
  exit : CollectExit
  posts : Nat
  counts : List ℤ
deriving DecidableEq, Repr

/-- `PinAi.collectCoins` given the starting `coin.count` and the list of
server responses the loop will consume, one per iteration.  `while
(coin.count > 0)` guards each iteration; a 200 response overwrites
`coin.count` with the server-reported Telegram count (throwing — hence
`caught` — when the response has no Telegram entry); `if (coin.count ===
0) break`; a non-200 response breaks; a transport error is caught.  If
the response list runs out while the loop would continue, the run is
`exhausted`: the loop itself has no iteration cap. -/
def collectCoins (count : ℤ) : List CoinResp → CollectRun
  | [] => if count > 0 then ⟨.exhausted, 0, []⟩ else ⟨.zero, 0, []⟩
  | r :: rest =>
    if count > 0 then
      match r with
      | .netErr => ⟨.caught, 1, []⟩
      | .ok status coins =>
        if status = 200 then
          match findCoin coins with
          | none => ⟨.caught, 1, []⟩
          | some newCount =>
            if newCount = 0 then ⟨.zero, 1, [newCount]⟩
            else
              let run := collectCoins newCount rest
              ⟨run.exit, run.posts + 1, newCount :: run.counts⟩
        else ⟨.non200, 1, []⟩
    else ⟨.zero, 0, []⟩

/-! ### Model upgrade (`PinAi.checkAndUpgradeModel`, `main.js` lines 225–258) -/

/-- One entry of the `/model/list` response's `cost_config`. -/
structure CostEntry where
  level : ℤ
  cost : ℚ
deriving DecidableEq, Repr

/-- A completed HTTP exchange (status and typed body) or a thrown
transport error. -/
inductive HttpResult (α : Type) where
  | ok (status : Nat) (body : α) : HttpResult α
  | err : HttpResult α
deriving DecidableEq, Repr

/-- Observable outcome of the upgrade check. -/
inductive UpgradeOutcome where
  | upgraded : UpgradeOutcome
  | warnedInsufficient : UpgradeOutcome
  | noEntry : UpgradeOutcome
  | non200 : UpgradeOutcome
  | caught : UpgradeOutcome
deriving DecidableEq, Repr

/-- `PinAi.checkAndUpgradeModel`: GET `/model/list`; on 200, find the
first `cost_config` entry for `currentLevel + 1`; if present, compare the
parsed balance with its cost (a `NaN` balance compares false, landing in
the warning branch) and either POST the upgrade or log the warning; if
absent, do nothing. -/
def checkAndUpgradeModel (resp : HttpResult (List CostEntry)) (currentPoints : JsVal)
    (currentLevel : ℤ) : UpgradeOutcome :=
  match resp with
  | .err => .caught
  | .ok status cfg =>
    if status = 200 then
      match cfg.find? (fun config => config.level = currentLevel + 1) with
      | some entry =>
        match parsePoints currentPoints with
        | some p => if p ≥ entry.cost then .upgraded else .warnedInsufficient
        | none => .warnedInsufficient
      | none => .noEntry
    else .non200

/-! ### Home data (`PinAi.getHomeData`, `main.js` lines 193–216) -/

/-- The fields of the `/home` response body the function destructures. -/
structure HomeData where
  pin_points : JsVal
  coins : List (String × ℤ)
  current_level : ℤ
deriving DecidableEq, Repr

/-- Server behaviour for one `getHomeData` call. -/
structure HomeCfg where
  homeResp : HttpResult HomeData
  collectResps : List CoinResp
  upgradeResp : HttpResult (List CostEntry)

/-- Observable outcome of one `getHomeData` call: the claim-loop run if
it was entered, and the upgrade-check outcome if it was invoked. -/
structure HomeRun where
  collect : Option CollectRun
  upgrade : Option UpgradeOutcome
deriving DecidableEq, Repr

/-- `PinAi.getHomeData`: on a 200 `/home` response, enter the claim loop
when the Telegram coin exists with positive count (`coinToCollect?.count >
0`), then, when `shouldUpgrade`, run the upgrade check with the response's
balance and level.  `collectCoins` and `checkAndUpgradeModel` both absorb
their own failures, so corrupt claim responses never prevent the upgrade
step. -/
def getHomeData (cfg : HomeCfg) (shouldUpgrade : Bool) : HomeRun :=
  match cfg.homeResp with
  | .err => ⟨none, none⟩
  | .ok status data =>
    if status = 200 then
      let collect :=
        match findCoin data.coins with
        | some c => if c > 0 then some (collectCoins c cfg.collectResps) else none
        | none => none
      let upgrade :=
        if shouldUpgrade then
          some (checkAndUpgradeModel cfg.upgradeResp data.pin_points data.current_level)
        else none
      ⟨collect, upgrade⟩
    else ⟨none, none⟩

/-! ### Tasks (`PinAi.getTasks`, `main.js` lines 286–327) -/

/-- The `checkin_detail` sub-object of a task. -/
structure CheckinDetail where
  is_today_checkin : ℤ
deriving DecidableEq, Repr

/-- One entry of the `/task/list` response (`checkin_detail` is optional
in the payload; accessing it when absent throws). -/
structure ApiTask where
  task_id : ℤ
  task_name : String
  is_complete : Bool
  reward_points : ℤ
  checkin_detail : Option CheckinDetail
deriving DecidableEq, Repr

/-- What the task loop does with one task. -/
inductive TaskAction where
  | checkinMsg : TaskAction
  | genericMsg : TaskAction
  | skip : TaskAction
  | throwAccess : TaskAction
deriving DecidableEq, Repr

/-- The branch taken for one task: `task.task_id === 1001 &&
task.checkin_detail.is_today_checkin === 0` (short-circuit: the detail is
only accessed for id 1001, and accessing a missing detail throws),
otherwise `else if (!task.is_complete)`. -/
def taskAction (t : ApiTask) : TaskAction :=
  if t.task_id = 1001 then
    match t.checkin_detail with
    | none => .throwAccess
    | some d =>
      if d.is_today_checkin = 0 then .checkinMsg
      else if !t.is_complete then .genericMsg else .skip
  else if !t.is_complete then .genericMsg else .skip

/-- The task loop over the fetched list, in order; a thrown property
access aborts the whole loop (the surrounding `catch`), while completed
and skipped tasks let it continue. -/
def getTasksActions : List ApiTask → List (ℤ × TaskAction)
  | [] => []
  | t :: ts =>
    match taskAction t with
    | .throwAccess => [(t.task_id, .throwAccess)]
    | a => (t.task_id, a) :: getTasksActions ts

/-! ### Orchestrator (`PinAi.main`, `main.js` lines 329–375) -/

/-- The object key a JavaScript number produces when used to index an
object.  Integer values render exactly; the non-integer rendering is
approximated by the rational's own textual form (cosmetic only, no claim
depends on it). -/
def jsNumKey (q : ℚ) : String :=
  if q.den = 1 then toString q.num else toString q

/-- The account-id extraction
`JSON.parse(decodeURIComponent(initData.split("user=")[1].split("&")[0])).id`
from `main`, as the object key it produces: `none` models any thrown
error (no `user=` segment, a malformed percent escape, unparsable JSON,
or property access on `null`); a parse result without a numeric `id`
indexes the token object with the key `"undefined"`. -/
def extractUserId (line : String) : Option String := do
  let seg ← (splitOnStr line 'u' ['s', 'e', 'r', '=']).get? 1
  let json ← percentDecode ((splitOnStr seg '&' []).headD "")
  let v ← jsonParse json
  match v with
  | .null => none
  | v =>
    match v.getField "id" with
    | some (.num q) => pure (jsNumKey q)
    | _ => pure "undefined"

/-- The observable per-account events of one orchestration pass. -/
inductive Event where
  | loginCall (key : String) (success : Bool) : Event
  | tokenSaved (key : String) (token : String) : Event
  | enginesRun (key : String) (token : String) : Event
  | exit1 : Event
deriving DecidableEq, Repr

/-- One account iteration of `main`'s loop: extract the key (a throw
propagates to `main`'s catch, modelled by `none`); read the token from
the STARTUP SNAPSHOT `tokenData` (the `const` bound before the `while`
loop and never re-read); if it is absent, falsy (empty) or expired, call
login — on success persist the token and run both engines with it, on
failure do nothing more; otherwise run both engines with the cached
token. -/
def processAccount (tokenData : TokenStore) (file : TokenFile) (line : String)
    (loginRes : Option String) (now : ℤ) : Option (TokenFile × List Event) :=
  match extractUserId line with
  | none => none
  | some key =>
    let afterLogin : TokenFile × List Event :=
      match loginRes with
      | some newTok =>
        (saveToken file key newTok,
          [.loginCall key true, .tokenSaved key newTok, .enginesRun key newTok])
      | none => (file, [.loginCall key false])
    match lookupKey tokenData key with
    | some t =>
      if t = "" || isExpired now t then some afterLogin
      else some (file, [.enginesRun key t])
    | none => some afterLogin

/-- Result of one pass (or a truncated run) over the account list. -/
structure CycleResult where
  file : TokenFile
  events : List Event
  threw : Bool
deriving DecidableEq, Repr

/-- One `for` pass over the account lines, threading the token file;
a thrown extraction aborts the pass. -/
def runCycle (tokenData : TokenStore) (now : ℤ) (login : Nat → Option String) :
    List String → Nat → TokenFile → CycleResult
  | [], _, file => ⟨file, [], false⟩
  | line :: rest, i, file =>
    match processAccount tokenData file line (login i) now with
    | none => ⟨file, [], true⟩
    | some (file2, evs) =>
      let r := runCycle tokenData now login rest (i + 1) file2
      ⟨r.file, evs ++ r.events, r.threw⟩

/-- Result of a (fuel-bounded prefix of the) infinite `while (true)`
loop. -/
structure MainResult where
  file : TokenFile
  events : List Event
  exited : Bool
deriving DecidableEq, Repr

/-- The `while (true)` loop of `main`, bounded to `fuel` passes:
`tokenData` is the fixed startup snapshot, while the token FILE evolves
through `saveToken`; a throw escaping a pass reaches `main`'s catch,
which logs and calls `process.exit(1)`. -/
def runCycles (tokenData : TokenStore) (lines : List String) (now : ℤ)
    (login : Nat → Nat → Option String) : Nat → Nat → TokenFile → MainResult
  | 0, _, file => ⟨file, [], false⟩
  | fuel + 1, cyc, file =>
    let c := runCycle tokenData now (login cyc) lines 0 file
    if c.threw then ⟨c.file, c.events ++ [.exit1], true⟩
    else
      let r := runCycles tokenData lines now login fuel (cyc + 1) c.file
      ⟨r.file, c.events ++ r.events, r.exited⟩

/-- `data.replace(/\r/g, "").split("\n").filter(Boolean)`. -/
def splitLines (raw : String) : List String :=
  (splitOnStr ⟨raw.toList.filter (fun c => c ≠ '\r')⟩ '\n' []).filter (fun l => l ≠ "")

/-- `PinAi.main`: read the account file (`none` models an unreadable
file, whose exception reaches the catch and exits with status 1), load
the token snapshot ONCE, then run the cycle loop. -/
def runMain (raw : Option String) (file0 : TokenFile) (now : ℤ)
    (login : Nat → Nat → Option String) (cycles : Nat) : MainResult :=
  match raw with
  | none => ⟨file0, [.exit1], true⟩
  | some content =>
    runCycles (loadTokens file0) (splitLines content) now login cycles 0 file0

/-- A sequence of successful (HTTP 200) claim responses reporting the
given Telegram counts, used to describe server scenarios for the claim
loop. -/
def okResps (vs : List ℤ) : List CoinResp :=
  vs.map (fun v => .ok 200 [("Telegram", v)])

/-! ## Helper lemmas -/

theorem stripCommas_of_not_mem {s : String} (h : ',' ∉ s.toList) : stripCommas s = s := by
  cases s with
  | mk data =>
    simp only [stripCommas, String.toList] at *
    congr 1
    exact List.filter_eq_self.mpr (by
      intro a ha
      simp only [ne_eq, decide_eq_true_eq]
      exact fun hc => h (hc ▸ ha))

theorem lookupKey_cons_eq {a b k : String} {rest : TokenStore} (h : a = k) :
    lookupKey ((a, b) :: rest) k = some b := by
  simp [lookupKey, List.find?, h]

theorem lookupKey_cons_ne {a b k : String} {rest : TokenStore} (h : a ≠ k) :
    lookupKey ((a, b) :: rest) k = lookupKey rest k := by
  simp [lookupKey, List.find?, h]

theorem lookupKey_setKey_self (m : TokenStore) (k v : String) :
    lookupKey (setKey m k v) k = some v := by
  induction m with
  | nil => simp [setKey, lookupKey, List.find?]
  | cons p rest ih =>
    obtain ⟨a, b⟩ := p
    by_cases hp : a = k
    · simp only [setKey, hp, if_true]
      exact lookupKey_cons_eq rfl
    · simp only [setKey, hp, if_false]
      exact (lookupKey_cons_ne hp).trans ih

theorem lookupKey_setKey_other (m : TokenStore) (k v k' : String) (h : k' ≠ k) :
    lookupKey (setKey m k v) k' = lookupKey m k' := by
  induction m with
  | nil => simp [setKey, lookupKey, List.find?, Ne.symm h]
  | cons p rest ih =>
    obtain ⟨a, b⟩ := p
    by_cases hp : a = k
    · simp only [setKey, hp, if_true]
      rw [lookupKey_cons_ne (Ne.symm h), lookupKey_cons_ne (Ne.symm h)]
    · simp only [setKey, hp, if_false]
      by_cases hp' : a = k'
      · rw [lookupKey_cons_eq hp', lookupKey_cons_eq hp']
      · rw [lookupKey_cons_ne hp', lookupKey_cons_ne hp']
        exact ih

theorem isExpired_of_decode_notNull {tok : String} {now : ℤ} {p : Json}
    (h : decodeClaims tok = some p) (hn : p ≠ .null) :
    isExpired now tok =
      match p.getField "exp" with
      | some e => if truthy e then jsGreater now e else false
      | none => false := by
  unfold isExpired
  rw [h]
  cases p
  case null => exact absurd rfl hn
  all_goals rfl

theorem mem_keys_setKey {m : TokenStore} {k v x : String}
    (h : x ∈ (setKey m k v).map Prod.fst) : x ∈ m.map Prod.fst ∨ x = k := by
  induction m with
  | nil => simpa [setKey] using h
  | cons p rest ih =>
    by_cases hp : p.1 = k
    · simp only [setKey, hp, if_true, List.map_cons, List.mem_cons] at h
      rcases h with h | h
      · right; exact h
      · left; exact List.mem_cons_of_mem _ h
    · simp only [setKey, hp, if_false, List.map_cons, List.mem_cons] at h
      rcases h with h | h
      · left; exact List.mem_cons.mpr (Or.inl h)
      · rcases ih h with h2 | h2
        · left; exact List.mem_cons_of_mem _ h2
        · right; exact h2

theorem keys_setKey_nodup (m : TokenStore) (k v : String)
    (h : (m.map Prod.fst).Nodup) : ((setKey m k v).map Prod.fst).Nodup := by
  induction m with
  | nil => simp [setKey]
  | cons p rest ih =>
    simp only [List.map_cons, List.nodup_cons] at h
    by_cases hp : p.1 = k
    · simp only [setKey, hp, if_true, List.map_cons, List.nodup_cons]
      exact ⟨hp ▸ h.1, h.2⟩
    · simp only [setKey, hp, if_false, List.map_cons, List.nodup_cons]
      refine ⟨fun hmem => ?_, ih h.2⟩
      rcases mem_keys_setKey hmem with h2 | h2
      · exact h.1 h2
      · exact hp h2

/-! ## Claim C5 — point-balance parser -/

/-- C5 counterexample: on a string with both commas and a `K` suffix the
code does NOT apply comma stripping — it multiplies
`parseFloat("1,500")` (which stops at the comma, giving 1) by 1000,
yielding 1000 instead of the comma-stripped numeral times 1000
(1 500 000, as computed by the spec-worded `parsePointsSpec`). -/
theorem parsePoints_comma_suffix_cex :
    parsePoints (.str "1,500K") = some 1000 ∧
    parsePointsSpec (.str "1,500K") = some 1500000 ∧
    parsePoints (.str "1,500K") ≠ parsePointsSpec (.str "1,500K") := by
  have h1 : parsePoints (.str "1,500K") = some ((1 : ℚ) * 1000) := rfl
  have h2 : parsePointsSpec (.str "1,500K") = some ((1500 : ℚ) * 1000) := rfl
  refine ⟨?_, ?_, ?_⟩
  · rw [h1]; norm_num
  · rw [h2]; norm_num
  · rw [h1, h2]
    simp only [ne_eq, Option.some.injEq]
    norm_num

/-- C5 (amended): `parsePoints` gives `"1,200" ↦ 1200`, `"5K" ↦ 5000`,
`"2.3M" ↦ 2300000`, returns numeric inputs unchanged, and agrees with the
strip-commas-first spec reading on every comma-free string; on a string
without a `K` or `M` suffix it parses the comma-stripped numeral.  (Comma
stripping takes effect ONLY in the suffix-free branch, as the
counterexample shows.) -/
theorem parsePoints_amended :
    parsePoints (.str "1,200") = some 1200 ∧
    parsePoints (.str "5K") = some 5000 ∧
    parsePoints (.str "2.3M") = some 2300000 ∧
    (∀ q : ℚ, parsePoints (.num q) = some q) ∧
    (∀ s : String, ',' ∉ s.toList → parsePoints (.str s) = parsePointsSpec (.str s)) ∧
    (∀ s : String, 'K' ∉ s.toList → 'M' ∉ s.toList →
      parsePoints (.str s) = parseFloat (stripCommas s)) := by
  refine ⟨rfl, ?_, ?_, fun q => rfl, fun s hs => ?_, fun s hK hM => ?_⟩
  · rw [show parsePoints (.str "5K") = some ((5 : ℚ) * 1000) from rfl]
    norm_num
  · rw [show parsePoints (.str "2.3M") = some (((2 : ℚ) + 3 / 10 ^ 1) * 1000000) from rfl]
    norm_num
  · have h := stripCommas_of_not_mem hs
    simp only [parsePoints, parsePointsSpec, h]
  · have hK2 : s.toList.contains 'K' = false := by
      simpa using hK
    have hM2 : s.toList.contains 'M' = false := by
      simpa using hM
    simp only [parsePoints, hK2, hM2, Bool.false_eq_true, if_false]

/-- Witness for the C5 theorem at the spec's own example `"12.5K"`. -/
theorem parsePoints_amended_witness :
    parsePoints (.str "12.5K") = parsePointsSpec (.str "12.5K") :=
  parsePoints_amended.2.2.2.2.1 "12.5K" (by decide)

/-! ## Claim C6 — token expiry check -/

/-- C6 counterexample: the token whose claims segment decodes to
`\x7b"exp":0\x7d` is well-formed and its expiration claim (epoch second
0) is in the past, yet `isExpired` returns `false`: the truthiness test
`if (decodedPayload.exp)` treats the claim value 0 as absent. -/
theorem isExpired_zero_exp_cex :
    decodeClaims "h.eyJleHAiOjB9.s" = some (.obj [("exp", .num 0)]) ∧
    (0 : ℚ) < 1700000000 ∧
    isExpired 1700000000 "h.eyJleHAiOjB9.s" = false :=
  ⟨rfl, by norm_num, rfl⟩

/-- C6 (amended): for a token whose claims decode with a NONZERO numeric
`exp`, `isExpired now` is true exactly when the claim is in the past
(`exp < now`, strict); a decoded payload without an `exp` field gives
false; an undecodable token gives true (fail-closed); and an `exp` claim
equal to 0 — although a past instant — is falsy and gives false. -/
theorem isExpired_amended :
    (∀ (tok : String) (now : ℤ) (p : Json) (e : ℚ),
      decodeClaims tok = some p → p.getField "exp" = some (.num e) → e ≠ 0 →
      (isExpired now tok = true ↔ e < (now : ℚ))) ∧
    (∀ (tok : String) (now : ℤ) (p : Json),
      decodeClaims tok = some p → p ≠ .null → p.getField "exp" = none →
      isExpired now tok = false) ∧
    (∀ (tok : String) (now : ℤ),
      decodeClaims tok = none → isExpired now tok = true) ∧
    (∀ (tok : String) (now : ℤ) (p : Json),
      decodeClaims tok = some p → p.getField "exp" = some (.num 0) →
      isExpired now tok = false) := by
  refine ⟨fun tok now p e h1 h2 he => ?_, fun tok now p h1 hn h2 => ?_,
    fun tok now h1 => ?_, fun tok now p h1 h2 => ?_⟩
  · have hn : p ≠ .null := by
      rintro rfl
      simp [Json.getField] at h2
    rw [isExpired_of_decode_notNull h1 hn, h2]
    simp [truthy, jsGreater, he, gt_iff_lt]
  · rw [isExpired_of_decode_notNull h1 hn, h2]
  · unfold isExpired
    rw [h1]
  · have hn : p ≠ .null := by
      rintro rfl
      simp [Json.getField] at h2
    rw [isExpired_of_decode_notNull h1 hn, h2]
    simp [truthy, jsGreater]

/-- Witness for the C6 theorem: a token with the past nonzero claim
`exp = 1` is reported expired at `now = 1 700 000 000`. -/
theorem isExpired_amended_witness :
    isExpired 1700000000 "h.eyJleHAiOjF9.s" = true :=
  (isExpired_amended.1 "h.eyJleHAiOjF9.s" 1700000000 (.obj [("exp", .num 1)]) 1
    rfl rfl (by norm_num)).mpr (by norm_num)

/-! ## Claim C9 — credential store writes -/

/-- C9: `saveToken` re-reads the persisted mapping, overwrites the entry
for the saved account id, and rewrites the whole store: afterwards the
saved id maps to the new token, every other id's record is unchanged, a
single save preserves key uniqueness, and over any sequence of saves the
store keeps at most one record per account id while ids never written to
keep their original record. -/
theorem saveToken_store_invariant :
    (∀ (file : TokenFile) (uid tok : String),
      lookupKey (loadTokens (saveToken file uid tok)) uid = some tok) ∧
    (∀ (file : TokenFile) (uid tok k : String), k ≠ uid →
      lookupKey (loadTokens (saveToken file uid tok)) k = lookupKey (loadTokens file) k) ∧
    (∀ (file : TokenFile) (uid tok : String),
      ((loadTokens file).map Prod.fst).Nodup →
      ((loadTokens (saveToken file uid tok)).map Prod.fst).Nodup) ∧
    (∀ (ops : List (String × String)) (file : TokenFile),
      ((loadTokens file).map Prod.fst).Nodup →
      ((loadTokens (ops.foldl (fun f p => saveToken f p.1 p.2) file)).map Prod.fst).Nodup) ∧
    (∀ (ops : List (String × String)) (file : TokenFile) (k : String),
      (∀ p ∈ ops, p.1 ≠ k) →
      lookupKey (loadTokens (ops.foldl (fun f p => saveToken f p.1 p.2) file)) k =
        lookupKey (loadTokens file) k) := by
  refine ⟨fun file uid tok => lookupKey_setKey_self _ _ _,
    fun file uid tok k hk => lookupKey_setKey_other _ _ _ _ hk,
    fun file uid tok h => keys_setKey_nodup _ _ _ h, fun ops => ?_, fun ops => ?_⟩
  · induction ops with
    | nil => intro file h; exact h
    | cons p rest ih =>
      intro file h
      simpa using ih (saveToken file p.1 p.2) (keys_setKey_nodup _ _ _ h)
  · induction ops with
    | nil => intro file k _; rfl
    | cons p rest ih =>
      intro file k hk
      have h1 := ih (saveToken file p.1 p.2) k (fun q hq => hk q (List.mem_cons_of_mem _ hq))
      simp only [List.foldl_cons] at h1 ⊢
      rw [h1]
      exact lookupKey_setKey_other _ _ _ _ (Ne.symm (hk p (List.mem_cons_self _ _)))

/-- Witness for the C9 theorem: saving a token for account `"8"` leaves
account `"7"`'s record unchanged. -/
theorem saveToken_store_invariant_witness :
    lookupKey (loadTokens (saveToken (.good [("7", "a")]) "8" "b")) "7" = some "a" :=
  saveToken_store_invariant.2.1 (.good [("7", "a")]) "8" "b" "7" (by decide)

/-! ## Claim C1 — task completion branches -/

/-- C1 counterexample: the id-1001 task with `is_today_checkin = 1` and
`is_complete = false` IS completed — through the generic `!is_complete`
branch with the generic reward message — contradicting "task 1001 is
gated exclusively by the is_today_checkin flag and is never completed
through the is_complete branch". -/
theorem task1001_fallthrough_cex :
    taskAction ⟨1001, "checkin", false, 10, some ⟨1⟩⟩ = .genericMsg := rfl

/-- C1 (amended): a task with id ≠ 1001 is completed with the generic
message exactly when `is_complete` is false; the id-1001 task is
completed with the CHECK-IN message exactly when `is_today_checkin = 0`
(regardless of `is_complete`), but when `is_today_checkin ≠ 0` it falls
through to the generic branch like any other task — completed with the
generic message whenever `is_complete` is false.  The loop applies this
branch to every task of the fetched list in order (provided no id-1001
task is missing its `checkin_detail`, which would abort the loop). -/
theorem getTasks_checkin_amended :
    (∀ t : ApiTask, t.task_id ≠ 1001 → t.is_complete = false → taskAction t = .genericMsg) ∧
    (∀ t : ApiTask, t.task_id ≠ 1001 → t.is_complete = true → taskAction t = .skip) ∧
    (∀ (t : ApiTask) (d : CheckinDetail), t.task_id = 1001 → t.checkin_detail = some d →
      d.is_today_checkin = 0 → taskAction t = .checkinMsg) ∧
    (∀ (t : ApiTask) (d : CheckinDetail), t.task_id = 1001 → t.checkin_detail = some d →
      d.is_today_checkin ≠ 0 →
      taskAction t = if t.is_complete then .skip else .genericMsg) ∧
    (∀ tasks : List ApiTask, (∀ t ∈ tasks, t.task_id = 1001 → t.checkin_detail ≠ none) →
      getTasksActions tasks = tasks.map (fun t => (t.task_id, taskAction t))) := by
  have hbranch : ∀ t : ApiTask, taskAction t ≠ .throwAccess ∨
      (t.task_id = 1001 ∧ t.checkin_detail = none) := by
    intro t
    unfold taskAction
    by_cases h1 : t.task_id = 1001
    · cases hd : t.checkin_detail with
      | none => exact Or.inr ⟨h1, rfl⟩
      | some d =>
        refine Or.inl ?_
        simp only [h1, if_true, hd]
        split <;> (try split) <;> simp
    · refine Or.inl ?_
      simp only [h1, if_false]
      split <;> simp
  refine ⟨fun t h1 h2 => by simp [taskAction, h1, h2],
    fun t h1 h2 => by simp [taskAction, h1, h2],
    fun t d h1 h2 h3 => by simp [taskAction, h1, h2, h3],
    fun t d h1 h2 h3 => by cases h : t.is_complete <;> simp [taskAction, h1, h2, h3, h],
    fun tasks => ?_⟩
  induction tasks with
  | nil => intro _; rfl
  | cons t ts ih =>
    intro h
    have ht : taskAction t ≠ .throwAccess := by
      rcases hbranch t with h2 | ⟨h2, h3⟩
      · exact h2
      · exact absurd h3 (h t (List.mem_cons_self _ _) h2)
    unfold getTasksActions
    cases ha : taskAction t with
    | throwAccess => exact absurd ha ht
    | checkinMsg =>
      simp only [List.map_cons, ha]
      exact congrArg _ (ih (fun u hu => h u (List.mem_cons_of_mem _ hu)))
    | genericMsg =>
      simp only [List.map_cons, ha]
      exact congrArg _ (ih (fun u hu => h u (List.mem_cons_of_mem _ hu)))
    | skip =>
      simp only [List.map_cons, ha]
      exact congrArg _ (ih (fun u hu => h u (List.mem_cons_of_mem _ hu)))

/-- Witness for the C1 theorem: the id-1001 task with today's check-in
still open is completed with the check-in message even though its own
`is_complete` is already true. -/
theorem getTasks_checkin_amended_witness :
    taskAction ⟨1001, "checkin", true, 10, some ⟨0⟩⟩ = .checkinMsg :=
  getTasks_checkin_amended.2.2.1 ⟨1001, "checkin", true, 10, some ⟨0⟩⟩ ⟨0⟩ rfl rfl rfl

theorem collectCoins_ok_step {c v : ℤ} (hc : 0 < c) (hv : v ≠ 0) (rest : List CoinResp) :
    collectCoins c (.ok 200 [("Telegram", v)] :: rest) =
      ⟨(collectCoins v rest).exit, (collectCoins v rest).posts + 1,
        v :: (collectCoins v rest).counts⟩ := by
  simp [collectCoins, hc, findCoin, List.find?, hv]

theorem collectCoins_ok_zeroResp {c : ℤ} (hc : 0 < c) (rest : List CoinResp) :
    collectCoins c (.ok 200 [("Telegram", 0)] :: rest) = ⟨.zero, 1, [0]⟩ := by
  simp [collectCoins, hc, findCoin, List.find?]

/-! ## Claim C4 — claim-loop behaviour -/

/-- C4 counterexample: a successful (HTTP 200) claim does NOT necessarily
strictly decrease the tracked count — the loop overwrites the count with
whatever the server reports.  Starting from count 1, a 200 response
reporting 5 RAISES the tracked count to 5, and the loop then continues
from there. -/
theorem collectCoins_increase_cex :
    collectCoins 1 [.ok 200 [("Telegram", 5)], .ok 200 [("Telegram", 0)]] =
      ⟨.zero, 2, [5, 0]⟩ ∧ ¬((5 : ℤ) < 1) :=
  ⟨rfl, by decide⟩

/-- C4 (amended): each successful claim REPLACES the tracked count with
the server-reported Telegram count (so the count strictly decreases only
when the server reports strictly smaller values).  When the reported
counts stay positive until a final 0, the loop performs exactly one claim
per response and terminates through the count-reached-0 exit; a non-200
response terminates the loop immediately regardless of the remaining
count; and there is no iteration cap: for every n, a server that keeps
reporting the same positive count makes the loop issue n claims and keep
going. -/
theorem collectCoins_amended :
    (∀ (c : ℤ) (vs : List ℤ), 0 < c → (∀ v ∈ vs.dropLast, 0 < v) → vs.getLast? = some 0 →
      collectCoins c (okResps vs) = ⟨.zero, vs.length, vs⟩) ∧
    (∀ (c : ℤ) (status : Nat) (coins : List (String × ℤ)) (rest : List CoinResp),
      0 < c → status ≠ 200 →
      collectCoins c (.ok status coins :: rest) = ⟨.non200, 1, []⟩) ∧
    (∀ (n : Nat) (c : ℤ), 0 < c →
      collectCoins c (okResps (List.replicate n c)) = ⟨.exhausted, n, List.replicate n c⟩) := by
  refine ⟨fun c vs => ?_, fun c status coins rest hc hs => ?_, fun n c hc => ?_⟩
  · induction vs generalizing c with
    | nil => intro _ _ hlast; exact absurd hlast (by simp)
    | cons v vs2 ih =>
      intro hc hpos hlast
      cases vs2 with
      | nil =>
        have hv : v = 0 := by simpa using hlast
        subst hv
        simpa [okResps] using collectCoins_ok_zeroResp hc []
      | cons w ws =>
        have hv : 0 < v := hpos v (by simp)
        have hrec := ih v hv (fun u hu => hpos u (by simpa using Or.inr hu))
          (by simpa using hlast)
        simp only [okResps, List.map_cons] at hrec ⊢
        rw [collectCoins_ok_step hc hv.ne', hrec]
        simp
  · simp [collectCoins, hc, hs]
  · induction n with
    | zero => simp [okResps, collectCoins, hc]
    | succ n ih =>
      simp only [okResps, List.replicate_succ, List.map_cons] at ih ⊢
      rw [collectCoins_ok_step hc hc.ne', ih]

/-- Witness for the C4 theorem: starting from count 2, the reported
counts 1 then 0 drive the loop to two claims and the count-0 exit. -/
theorem collectCoins_amended_witness :
    collectCoins 2 (okResps [1, 0]) = ⟨.zero, 2, [1, 0]⟩ :=
  collectCoins_amended.1 2 [1, 0] (by decide) (by decide) (by decide)

/-! ## Claim C8 — upgrade affordability check -/

/-- C8: given a 200 cost-table response, the upgrade request is issued if
and only if the table has an entry for `currentLevel + 1` and the parsed
balance is at least its cost; without such an entry the outcome is the
silent `noEntry` (no upgrade attempt, no warning); with an entry but an
insufficient (or unparsable) balance the outcome is the logged warning
and no upgrade attempt. -/
theorem upgrade_iff_affordable :
    (∀ (cfg : List CostEntry) (pts : JsVal) (lvl : ℤ),
      checkAndUpgradeModel (.ok 200 cfg) pts lvl = .upgraded ↔
        ∃ entry, cfg.find? (fun config => config.level = lvl + 1) = some entry ∧
          ∃ p, parsePoints pts = some p ∧ entry.cost ≤ p) ∧
    (∀ (cfg : List CostEntry) (pts : JsVal) (lvl : ℤ),
      cfg.find? (fun config => config.level = lvl + 1) = none →
      checkAndUpgradeModel (.ok 200 cfg) pts lvl = .noEntry) ∧
    (∀ (cfg : List CostEntry) (pts : JsVal) (lvl : ℤ) (entry : CostEntry),
      cfg.find? (fun config => config.level = lvl + 1) = some entry →
      (∀ p, parsePoints pts = some p → p < entry.cost) →
      checkAndUpgradeModel (.ok 200 cfg) pts lvl = .warnedInsufficient) := by
  refine ⟨fun cfg pts lvl => ?_, fun cfg pts lvl hf => ?_, fun cfg pts lvl entry hf hp => ?_⟩
  · unfold checkAndUpgradeModel
    cases hf : cfg.find? (fun config => config.level = lvl + 1) with
    | none => simp [hf]
    | some entry =>
      cases hp : parsePoints pts with
      | none => simp [hf, hp]
      | some p =>
        by_cases hc : entry.cost ≤ p
        · simp [hf, hp, hc, ge_iff_le]
        · simp [hf, hp, hc, ge_iff_le]
  · simp [checkAndUpgradeModel, hf]
  · cases hp2 : parsePoints pts with
    | none => simp [checkAndUpgradeModel, hf, hp2]
    | some p => simp [checkAndUpgradeModel, hf, hp2, not_le.mpr (hp p hp2), ge_iff_le]

/-- Witness for the C8 theorem: with no cost entry for level 2 the check
ends silently with no upgrade attempt. -/
theorem upgrade_iff_affordable_witness :
    checkAndUpgradeModel (.ok 200 []) (.num 5) 1 = .noEntry :=
  upgrade_iff_affordable.2.1 [] (.num 5) 1 rfl

/-! ## Claim C10 — collectCoins absorbs all failures -/

/-- C10: the claim loop absorbs every failure instead of propagating it:
a 200 response whose coin list has no Telegram entry throws inside the
loop body and is caught (`caught`, loop stops after that one claim), a
transport error likewise, and — for EVERY claim-loop server behaviour,
corrupt responses included — the surrounding home-data step still
proceeds to the upgrade check afterwards, so processing of the account
continues. -/
theorem collectCoins_absorbs_errors :
    (∀ (c : ℤ) (coins : List (String × ℤ)) (rest : List CoinResp),
      0 < c → findCoin coins = none →
      collectCoins c (.ok 200 coins :: rest) = ⟨.caught, 1, []⟩) ∧
    (∀ (c : ℤ) (rest : List CoinResp), 0 < c →
      collectCoins c (.netErr :: rest) = ⟨.caught, 1, []⟩) ∧
    (∀ (cfg : HomeCfg) (b : Bool) (data : HomeData), cfg.homeResp = .ok 200 data →
      (getHomeData cfg b).upgrade =
        if b then some (checkAndUpgradeModel cfg.upgradeResp data.pin_points data.current_level)
        else none) := by
  refine ⟨fun c coins rest hc hf => ?_, fun c rest hc => ?_, fun cfg b data hh => ?_⟩
  · simp [collectCoins, hc, hf]
  · simp [collectCoins, hc]
  · unfold getHomeData
    rw [hh]
    simp

/-- Witness for the C10 theorem: a 200 claim response without a Telegram
entry stops the loop as a caught error after one claim. -/
theorem collectCoins_absorbs_errors_witness :
    collectCoins 3 [.ok 200 [("Other", 2)]] = ⟨.caught, 1, []⟩ :=
  collectCoins_absorbs_errors.1 3 [("Other", 2)] [] (by decide) (by decide)

/-! ## Orchestrator lemmas -/

theorem processAccount_cached {td : TokenStore} {file : TokenFile} {line : String}
    {lr : Option String} {now : ℤ} {key tok : String}
    (hx : extractUserId line = some key) (hl : lookupKey td key = some tok)
    (hne : tok ≠ "") (hexp : isExpired now tok = false) :
    processAccount td file line lr now = some (file, [.enginesRun key tok]) := by
  simp [processAccount, hx, hl, hne, hexp]

theorem processAccount_loginCall_key {td : TokenStore} {file f2 : TokenFile}
    {line : String} {lr : Option String} {now : ℤ} {evs : List Event} {key : String}
    {b : Bool} (h : processAccount td file line lr now = some (f2, evs))
    (hm : Event.loginCall key b ∈ evs) :
    extractUserId line = some key ∧
      ∀ t, lookupKey td key = some t → t = "" ∨ isExpired now t = true := by
  unfold processAccount at h
  cases hx : extractUserId line with
  | none => rw [hx] at h; exact absurd h (by simp)
  | some key2 =>
    rw [hx] at h
    dsimp only at h
    cases hl2 : lookupKey td key2 with
    | none =>
      rw [hl2] at h
      cases lr with
      | some nt =>
        dsimp only at h
        simp only [Option.some.injEq, Prod.mk.injEq] at h
        obtain ⟨-, rfl⟩ := h
        simp only [List.mem_cons, List.not_mem_nil, or_false, Event.loginCall.injEq] at hm
        rcases hm with ⟨rfl, -⟩ | hm | hm
        · exact ⟨rfl, fun t ht => absurd (hl2 ▸ ht) (by simp)⟩
        · cases hm
        · cases hm
      | none =>
        dsimp only at h
        simp only [Option.some.injEq, Prod.mk.injEq] at h
        obtain ⟨-, rfl⟩ := h
        simp only [List.mem_cons, List.not_mem_nil, or_false, Event.loginCall.injEq] at hm
        obtain ⟨rfl, -⟩ := hm
        exact ⟨rfl, fun t ht => absurd (hl2 ▸ ht) (by simp)⟩
    | some t =>
      rw [hl2] at h
      dsimp only at h
      by_cases hcond : (t = "" || isExpired now t) = true
      · rw [if_pos hcond] at h
        have hor : t = "" ∨ isExpired now t = true := by
          simpa using hcond
        cases lr with
        | some nt =>
          dsimp only at h
          simp only [Option.some.injEq, Prod.mk.injEq] at h
          obtain ⟨-, rfl⟩ := h
          simp only [List.mem_cons, List.not_mem_nil, or_false, Event.loginCall.injEq] at hm
          rcases hm with ⟨rfl, -⟩ | hm | hm
          · exact ⟨rfl, fun u hu => by
              rw [hl2] at hu
              exact (Option.some.inj hu) ▸ hor⟩
          · cases hm
          · cases hm
        | none =>
          dsimp only at h
          simp only [Option.some.injEq, Prod.mk.injEq] at h
          obtain ⟨-, rfl⟩ := h
          simp only [List.mem_cons, List.not_mem_nil, or_false, Event.loginCall.injEq] at hm
          obtain ⟨rfl, -⟩ := hm
          exact ⟨rfl, fun u hu => by
            rw [hl2] at hu
            exact (Option.some.inj hu) ▸ hor⟩
      · rw [if_neg hcond] at h
        simp only [Option.some.injEq, Prod.mk.injEq] at h
        obtain ⟨-, rfl⟩ := h
        simp at hm

theorem processAccount_eq_none_iff {td : TokenStore} {file : TokenFile} {line : String}
    {lr : Option String} {now : ℤ} :
    processAccount td file line lr now = none ↔ extractUserId line = none := by
  unfold processAccount
  cases hx : extractUserId line with
  | none => simp
  | some key =>
    dsimp only
    simp only [reduceCtorEq, iff_false]
    cases hl : lookupKey td key with
    | none => cases lr <;> simp
    | some t =>
      dsimp only
      by_cases hcond : (t = "" || isExpired now t) = true
      · rw [if_pos hcond]; cases lr <;> simp
      · rw [if_neg hcond]; simp

theorem runCycle_no_login {td : TokenStore} {now : ℤ} {login : Nat → Option String}
    {key tok : String} (hl : lookupKey td key = some tok) (hne : tok ≠ "")
    (hexp : isExpired now tok = false) :
    ∀ (lines : List String) (i : Nat) (file : TokenFile) (b : Bool),
      Event.loginCall key b ∉ (runCycle td now login lines i file).events := by
  intro lines
  induction lines with
  | nil => intro i file b h; simp [runCycle] at h
  | cons line rest ih =>
    intro i file b h
    unfold runCycle at h
    cases hpa : processAccount td file line (login i) now with
    | none => rw [hpa] at h; simp at h
    | some res =>
      obtain ⟨file2, evs⟩ := res
      rw [hpa] at h
      simp only [List.mem_append] at h
      rcases h with h | h
      · have hk := processAccount_loginCall_key hpa h
        rcases hk.2 tok hl with h2 | h2
        · exact hne h2
        · rw [hexp] at h2
          exact Bool.false_ne_true h2
      · exact ih (i + 1) file2 b h

theorem runCycles_no_login {td : TokenStore} {lines : List String} {now : ℤ}
    {login : Nat → Nat → Option String} {key tok : String}
    (hl : lookupKey td key = some tok) (hne : tok ≠ "")
    (hexp : isExpired now tok = false) :
    ∀ (fuel cyc : Nat) (file : TokenFile) (b : Bool),
      Event.loginCall key b ∉ (runCycles td lines now login fuel cyc file).events := by
  intro fuel
  induction fuel with
  | zero => intro cyc file b h; simp [runCycles] at h
  | succ n ih =>
    intro cyc file b h
    unfold runCycles at h
    by_cases ht : (runCycle td now (login cyc) lines 0 file).threw = true
    · rw [if_pos ht] at h
      simp only [List.mem_append, List.mem_cons, List.not_mem_nil, or_false] at h
      rcases h with h | h
      · exact runCycle_no_login hl hne hexp lines 0 file b h
      · cases h
    · rw [if_neg ht] at h
      simp only [List.mem_append] at h
      rcases h with h | h
      · exact runCycle_no_login hl hne hexp lines 0 file b h
      · exact ih (cyc + 1) _ b h

theorem runCycle_threw_iff {td : TokenStore} {now : ℤ} {login : Nat → Option String} :
    ∀ (lines : List String) (i : Nat) (file : TokenFile),
      (runCycle td now login lines i file).threw = true ↔
        ∃ l ∈ lines, extractUserId l = none := by
  intro lines
  induction lines with
  | nil => intro i file; simp [runCycle]
  | cons line rest ih =>
    intro i file
    unfold runCycle
    cases hpa : processAccount td file line (login i) now with
    | none =>
      simp only [true_iff]
      exact ⟨line, by simp, processAccount_eq_none_iff.mp hpa⟩
    | some res =>
      obtain ⟨f2, evs⟩ := res
      have hx : extractUserId line ≠ none := by
        intro hn
        rw [processAccount_eq_none_iff.mpr hn] at hpa
        cases hpa
      rw [ih (i + 1) f2]
      constructor
      · rintro ⟨l, hlm, hle⟩
        exact ⟨l, List.mem_cons_of_mem _ hlm, hle⟩
      · rintro ⟨l, hlm, hle⟩
        rcases List.mem_cons.mp hlm with rfl | hlm2
        · exact absurd hle hx
        · exact ⟨l, hlm2, hle⟩

theorem runCycles_exited_iff {td : TokenStore} {lines : List String} {now : ℤ}
    {login : Nat → Nat → Option String} :
    ∀ (fuel cyc : Nat) (file : TokenFile),
      (runCycles td lines now login fuel cyc file).exited = true ↔
        (0 < fuel ∧ ∃ l ∈ lines, extractUserId l = none) := by
  intro fuel
  induction fuel with
  | zero => intro cyc file; simp [runCycles]
  | succ n ih =>
    intro cyc file
    unfold runCycles
    by_cases ht : (runCycle td now (login cyc) lines 0 file).threw = true
    · rw [if_pos ht]
      simpa using (runCycle_threw_iff lines 0 file).mp ht
    · rw [if_neg ht]
      have hno : ¬ ∃ l ∈ lines, extractUserId l = none :=
        fun hE => ht ((runCycle_threw_iff lines 0 file).mpr hE)
      rw [ih (cyc + 1) _]
      simp [hno]

/-! ## Claim C2 — token-cache snapshot and re-login -/

/-- C2 counterexample: the token mapping is loaded ONCE before the cycle
loop, so a token persisted by a successful login during the run is never
read back.  With one account (id 7), an initially missing token file and
every login issuing the valid, unexpired token `"h.e30.s"` (claims
`\x7b\x7d`, no expiration), two cycles produce TWO login calls — the
second in a cycle where the account already holds a valid, unexpired
cached token in the store — refuting "the orchestrator never calls the
login step" for such accounts. -/
theorem stale_snapshot_relogin_cex :
    isExpired 1700000000 "h.e30.s" = false ∧
    runMain (some "user=%7B%22id%22%3A7%7D") .missing 1700000000
        (fun _ _ => some "h.e30.s") 2 =
      ⟨.good [("7", "h.e30.s")],
        [.loginCall "7" true, .tokenSaved "7" "h.e30.s", .enginesRun "7" "h.e30.s",
         .loginCall "7" true, .tokenSaved "7" "h.e30.s", .enginesRun "7" "h.e30.s"],
        false⟩ :=
  ⟨rfl, rfl⟩

/-- C2 (amended): the credential mapping is read once at startup into an
in-memory snapshot.  For an account whose SNAPSHOT entry holds a truthy,
unexpired token, the login step is never called in any cycle and the
engines run directly with the cached token; but a token persisted during
the run is not read back (see the counterexample), so an account absent
from the snapshot logs in again on every cycle. -/
theorem cachedToken_snapshot_amended :
    (∀ (td : TokenStore) (file : TokenFile) (line : String) (lr : Option String)
        (now : ℤ) (key tok : String),
      extractUserId line = some key → lookupKey td key = some tok → tok ≠ "" →
      isExpired now tok = false →
      processAccount td file line lr now = some (file, [.enginesRun key tok])) ∧
    (∀ (raw : String) (file0 : TokenFile) (now : ℤ) (login : Nat → Nat → Option String)
        (cycles : Nat) (key tok : String) (b : Bool),
      lookupKey (loadTokens file0) key = some tok → tok ≠ "" → isExpired now tok = false →
      Event.loginCall key b ∉ (runMain (some raw) file0 now login cycles).events) := by
  refine ⟨fun td file line lr now key tok hx hl hne hexp =>
      processAccount_cached hx hl hne hexp,
    fun raw file0 now login cycles key tok b hl hne hexp => ?_⟩
  unfold runMain
  exact runCycles_no_login hl hne hexp cycles 0 file0 b

/-- Witness for the C2 theorem: an account whose startup snapshot holds
the valid token `"h.e30.s"` runs the engines directly with it. -/
theorem cachedToken_snapshot_amended_witness :
    processAccount [("7", "h.e30.s")] .missing "user=%7B%22id%22%3A7%7D" (some "x")
        1700000000 = some (.missing, [.enginesRun "7" "h.e30.s"]) :=
  cachedToken_snapshot_amended.1 [("7", "h.e30.s")] .missing "user=%7B%22id%22%3A7%7D"
    (some "x") 1700000000 "7" "h.e30.s" rfl rfl (by decide) rfl

/-! ## Claim C3 — which errors terminate the process -/

/-- C3 counterexample: a READABLE account file whose single line lacks a
`user=` segment also terminates the process with exit status 1 — the
extraction throw reaches `main`'s catch — refuting "every other error is
logged and the orchestration loop continues". -/
theorem malformed_line_exit_cex :
    runMain (some "query_id=abc") .missing 0 (fun _ _ => none) 1 =
      ⟨.missing, [.exit1], true⟩ :=
  rfl

/-- C3 (amended): an unreadable account list at startup terminates the
process with exit status 1; per-account engine failures (failed login,
HTTP errors) are absorbed and the loop continues — with every line
extractable the process never exits — but a malformed account line
lacking a `user=` segment ALSO escapes to `main`'s catch and terminates
the process with exit status 1. -/
theorem startup_exit_amended :
    (∀ (file0 : TokenFile) (now : ℤ) (login : Nat → Nat → Option String) (cycles : Nat),
      runMain none file0 now login cycles = ⟨file0, [.exit1], true⟩) ∧
    (∀ (raw : String) (file0 : TokenFile) (now : ℤ) (login : Nat → Nat → Option String)
        (cycles : Nat),
      (∀ l ∈ splitLines raw, (extractUserId l).isSome) →
      (runMain (some raw) file0 now login cycles).exited = false) ∧
    (∀ (raw : String) (file0 : TokenFile) (now : ℤ) (login : Nat → Nat → Option String)
        (cycles : Nat),
      0 < cycles → (∃ l ∈ splitLines raw, extractUserId l = none) →
      (runMain (some raw) file0 now login cycles).exited = true) := by
  refine ⟨fun file0 now login cycles => rfl,
    fun raw file0 now login cycles h => ?_,
    fun raw file0 now login cycles hc hE => ?_⟩
  · unfold runMain
    by_contra hex
    rw [Bool.not_eq_false] at hex
    obtain ⟨-, l, hlm, hle⟩ := (runCycles_exited_iff cycles 0 file0).mp hex
    have hs := h l hlm
    rw [hle] at hs
    cases hs
  · unfold runMain
    exact (runCycles_exited_iff cycles 0 file0).mpr ⟨hc, hE⟩

/-- Witness for the C3 theorem: with one well-formed line and a failing
login, one full cycle completes without exiting. -/
theorem startup_exit_amended_witness :
    (runMain (some "user=%7B%22id%22%3A7%7D") .missing 0 (fun _ _ => none) 1).exited =
      false :=
  startup_exit_amended.2.1 "user=%7B%22id%22%3A7%7D" .missing 0 (fun _ _ => none) 1
    (by decide)

/-! ## Claim C7 — failed login leaves no trace -/

/-- C7: for an account whose cached token is missing, falsy or expired, a
failed login (null) leaves the token file unchanged and produces only the
failed-login event — no token is saved and neither engine runs for that
account this cycle. -/
theorem failedLogin_no_effect :
    ∀ (td : TokenStore) (file : TokenFile) (line : String) (now : ℤ) (key : String),
      extractUserId line = some key →
      (∀ t, lookupKey td key = some t → t = "" ∨ isExpired now t = true) →
      processAccount td file line none now = some (file, [.loginCall key false]) := by
  intro td file line now key hx hv
  unfold processAccount
  rw [hx]
  dsimp only
  cases hl : lookupKey td key with
  | none => rfl
  | some t =>
    dsimp only
    rcases hv t hl with h | h
    · simp [h]
    · simp [h]

/-- Witness for the C7 theorem: account 7 with no cached token and a
failed login leaves the missing token file untouched and runs nothing. -/
theorem failedLogin_no_effect_witness :
    processAccount [] .missing "user=%7B%22id%22%3A7%7D" none 0 =
      some (.missing, [.loginCall "7" false]) :=
  failedLogin_no_effect [] .missing "user=%7B%22id%22%3A7%7D" 0 "7" rfl
    (fun t ht => absurd ht (by simp [lookupKey, List.find?]))

end PinAi
